import Mathlib

/-!
Verification of the spec-to-invoker compiler in
`src/dbus_python_client_gen/_invokers.py`.

The source compiles an XML introspection specification (interface, method,
property and argument elements carrying string attributes) into invoker
closures.  We embed the XML elements as structures whose attributes are
`Option String` (a missing attribute is `none`, and a bare dictionary access
`elem.attrib[k]` on a missing key raises Python's `KeyError k`).  Invocation
of a generated closure is embedded as a pure function producing either an
error or the single transport `Call` that the closure would dispatch; an
`error` result means the transport is never invoked.
-/

/-- A native/wire value handled by the transformer registry. -/
inductive DVal where
  | num : Int → DVal
  | str : String → DVal
  deriving DecidableEq, Repr

/-- Errors that can escape generation or invocation.

`generationError` models `DPClientGenerationError` and `runtimeError` models
`DPClientRuntimeError`; both classes live in the repository's `_errors`
module, which is not under src/, so they are modelled from the spec (§7:
two error kinds, the runtime one "identifying both the expected and the
received name sets" — the constructor carries the two name lists in the
order the source formats them into its message).  `keyError` models Python's
builtin `KeyError` escaping an unguarded `attrib[...]` access; it is neither
of the two spec error kinds. -/
inductive PyError where
  | generationError : String → PyError
  | runtimeError : List String → List String → PyError
  | keyError : String → PyError
  deriving DecidableEq, Repr

/-- Is this error a `DPClientGenerationError`? -/
def PyError.isGen : PyError → Bool
  | .generationError _ => true
  | _ => false

/-- Does this generation result consist of a `DPClientGenerationError`? -/
def resultIsGenError {α : Type} : Except PyError α → Bool
  | .error e => e.isGen
  | .ok _ => false

/-- Modelled from the spec: the Type-Transformer Registry
(`into_dbus_python.xformers`), an external collaborator whose code is not in
this repository.  Per spec §6 it is "a lookup signature-string → encoder,
where encoder maps an ordered sequence of native values to an ordered
sequence of wire-ready values" (field `xformers`, used as
`func = xformers(signature)` by `build_method`); the property setter
resolves "an encoder for the property's single-element type signature"
(field `xformer0`, used as `xformers(signature)[0]` by
`build_property_setter`). -/
structure Registry where
  xformers : String → List DVal → List DVal
  xformer0 : String → DVal → DVal

/-- An `<arg>` element: attributes `name`, `type`, `direction`. -/
structure ArgSpec where
  name : Option String
  type : Option String
  direction : Option String
  deriving Repr

/-- A `<method>` element: attribute `name` and child `<arg>` elements in
document order. -/
structure MethodSpec where
  name : Option String
  args : List ArgSpec
  deriving Repr

/-- A `<property>` element: attributes `name`, `type`, `access`. -/
structure PropertySpec where
  name : Option String
  type : Option String
  access : Option String
  deriving Repr

/-- An `<interface>` element: attribute `name`, child `<method>` and
`<property>` elements, each kind kept in document order (as returned by
`findall('./method')` and `findall('./property')`). -/
structure InterfaceSpec where
  name : Option String
  methods : List MethodSpec
  properties : List PropertySpec

/-- The single transport interaction an invoker performs: a method call
`dbus_method(*args, dbus_interface=...)`, a `proxy_object.Get`, or a
`proxy_object.Set`. -/
inductive Call where
  | methodCall : String → List DVal → String → Call
  | getCall : String → String → Call
  | setCall : String → String → DVal → Call
  deriving DecidableEq, Repr

/-- The keyword-argument dictionary of a Python call, in insertion order.
Python guarantees its keys are pairwise distinct; theorems take that
`Nodup` fact as a hypothesis where they rely on it. -/
abbrev Kwargs := List (String × DVal)

/-- Models `frozenset(a) == frozenset(b)`: equality of the underlying sets. -/
def setEq (a b : List String) : Bool :=
  decide ((∀ x ∈ a, x ∈ b) ∧ (∀ x ∈ b, x ∈ a))

/-- Models Python's `sorted(l, key=...)` for a `Nat`-valued key: a stable
sort by `key a ≤ key b` (all stable sorts by the same key coincide with
Python's). -/
def pySorted {α : Type} (key : α → Nat) (l : List α) : List α :=
  List.insertionSort (fun a b => key a ≤ key b) l

/-- Models a list of attribute accesses `[e.attrib[k] for e in l]` through
projection `f`: the whole comprehension fails with `KeyError k` at the first
element missing the attribute. -/
def attrList {α : Type} (f : α → Option String) (k : String) :
    List α → Except PyError (List String)
  | [] => .ok []
  | a :: rest =>
    match f a with
    | none => .error (.keyError k)
    | some s =>
      match attrList f k rest with
      | .error e => .error e
      | .ok ss => .ok (s :: ss)

/-- The state a generated method closure (`build_method.dbus_func`) captures:
the interface name, the method name, the declared inbound argument names in
declaration order, and the encoder resolved from the registry at generation
time. -/
structure MethodInvoker where
  interface_name : String
  name : String
  arg_names : List String
  func : List DVal → List DVal

/-- `build_method` (`_invokers.py` lines 230-264): fetch the method name
(`DPClientGenerationError` if absent), select the `direction="in"` arguments
in declaration order, read their names (bare `KeyError` if one is absent),
concatenate their types into the combined signature (bare `KeyError` if a
type is absent), resolve the encoder for that signature from the registry,
and capture everything in the returned closure. -/
def build_method (reg : Registry) (interface_name : String)
    (spec : MethodSpec) : Except PyError MethodInvoker :=
  match spec.name with
  | none => .error (.generationError "No name found for method.")
  | some name =>
    let inargs := spec.args.filter (fun e => e.direction == some "in")
    match attrList (fun e => e.name) "name" inargs with
    | .error e => .error e
    | .ok arg_names =>
      match attrList (fun e => e.type) "type" inargs with
      | .error e => .error e
      | .ok types =>
        let signature := String.join types
        .ok { interface_name := interface_name, name := name,
              arg_names := arg_names, func := reg.xformers signature }

/-- Invoking `build_method.dbus_func` (`_invokers.py` lines 250-262): if
`frozenset(arg_names) != frozenset(kwargs.keys())`, raise
`DPClientRuntimeError` (the transport is never reached); otherwise sort the
supplied pairs by the declared position of their key
(`sorted(kwargs.items(), key=lambda x: arg_names.index(x[0]))`), encode the
value sequence, and dispatch the method call qualified by the interface
name. -/
def MethodInvoker.invoke (inv : MethodInvoker) (kwargs : Kwargs) :
    Except PyError Call :=
  if setEq inv.arg_names (kwargs.map Prod.fst) = false then
    .error (.runtimeError inv.arg_names (kwargs.map Prod.fst))
  else
    let args := (pySorted (fun p => List.indexOf p.1 inv.arg_names)
      kwargs).map Prod.snd
    .ok (.methodCall inv.name (inv.func args) inv.interface_name)

/-- Invocation as a state transition on the invoker's captured state.
`dbus_func` only reads the variables it closes over (`interface_name`,
`name`, `arg_names`, `func`) and never rebinds them, so the captured state
after a call — successful or failed — is exactly the captured state
before it. -/
def MethodInvoker.invokeSt (inv : MethodInvoker) (kwargs : Kwargs) :
    Except PyError Call × MethodInvoker :=
  (inv.invoke kwargs, inv)

/-- The state a property getter closure captures, and the `Get` call it
dispatches (`proxy_object.Get(interface_name, name, ...)`). -/
structure PropGetter where
  interface_name : String
  name : String

/-- `build_property_getter` dispatches this call when invoked. -/
def PropGetter.invoke (g : PropGetter) : Call :=
  .getCall g.interface_name g.name

/-- The state a property setter closure captures: interface name, property
name, and the encoder `xformers(signature)[0]` resolved at generation
time. -/
structure PropSetter where
  interface_name : String
  name : String
  xformer : DVal → DVal

/-- `build_property_setter.dbus_func` dispatches
`proxy_object.Set(interface_name, name, xformer(value), ...)`. -/
def PropSetter.invoke (s : PropSetter) (value : DVal) : Call :=
  .setCall s.interface_name s.name (s.xformer value)

/-- `build_property_getter` (`_invokers.py` lines 68-91): fetch the property
name (`DPClientGenerationError` if absent) and capture it with the interface
name. -/
def build_property_getter (interface_name : String) (p : PropertySpec) :
    Except PyError PropGetter :=
  match p.name with
  | none => .error (.generationError "No name found for property.")
  | some name => .ok { interface_name := interface_name, name := name }

/-- `build_property_setter` (`_invokers.py` lines 93-123): fetch the property
name, then its type (`DPClientGenerationError` if either is absent), resolve
the encoder for the type signature, and capture all three. -/
def build_property_setter (reg : Registry) (interface_name : String)
    (p : PropertySpec) : Except PyError PropSetter :=
  match p.name with
  | none => .error (.generationError "No name found for property.")
  | some name =>
    match p.type with
    | none => .error (.generationError "No type found for property.")
    | some signature =>
      .ok { interface_name := interface_name, name := name,
            xformer := reg.xformer0 signature }

/-- The accessors a generated property class exposes: an optional `Get`
static method and an optional `Set` static method. -/
structure PropertyInvoker where
  get : Option PropGetter
  set : Option PropSetter

/-- The `if access == "read" / elif access == "write" / else` block of
`prop_builder.builder` (`_invokers.py` lines 132-161): on `"read"` build
only the getter, on `"write"` only the setter, on any other access value
both (getter first, then setter, matching the order the source builds
them). -/
def prop_accessor_pair (reg : Registry) (interface_name : String)
    (access : String) (p : PropertySpec) : Except PyError PropertyInvoker :=
  if access = "read" then
    match build_property_getter interface_name p with
    | .error e => .error e
    | .ok g => .ok { get := some g, set := none }
  else if access = "write" then
    match build_property_setter reg interface_name p with
    | .error e => .error e
    | .ok s => .ok { get := none, set := some s }
  else
    match build_property_getter interface_name p with
    | .error e => .error e
    | .ok g =>
      match build_property_setter reg interface_name p with
      | .error e => .error e
      | .ok s => .ok { get := some g, set := some s }

/-- One iteration of the loop in `prop_builder.builder` (`_invokers.py`
lines 125-174): fetch `access` first (`DPClientGenerationError` if absent);
build the accessors the access value selects; then fetch `name` for the
namespace key and yield the keyed accessor class. -/
def build_prop_entry (reg : Registry) (interface_name : String)
    (p : PropertySpec) : Except PyError (String × PropertyInvoker) :=
  match p.access with
  | none => .error (.generationError "No access found for property.")
  | some access =>
    match prop_accessor_pair reg interface_name access p with
    | .error e => .error e
    | .ok inv =>
      match p.name with
      | none => .error (.generationError "No name found for property.")
      | some name => .ok (name, inv)

/-- One iteration of the loop in `method_builder.builder` (`_invokers.py`
lines 266-273): fetch the method name for the namespace key
(`DPClientGenerationError` if absent), build the method closure, and yield
the keyed closure. -/
def build_method_entry (reg : Registry) (interface_name : String)
    (m : MethodSpec) : Except PyError (String × MethodInvoker) :=
  match m.name with
  | none => .error (.generationError "No name found for method.")
  | some name =>
    match build_method reg interface_name m with
    | .error e => .error e
    | .ok inv => .ok (name, inv)

/-- Models Python dictionary assignment `ns[k] = v`: replace the value at an
existing key in place, else append the new binding. -/
def dictSet {α : Type} (ns : List (String × α)) (k : String) (v : α) :
    List (String × α) :=
  match ns with
  | [] => [(k, v)]
  | (k', v') :: rest =>
    if k' = k then (k, v) :: rest else (k', v') :: dictSet rest k v

/-- Models Python dictionary lookup `ns[k]`. -/
def dictGet {α : Type} (ns : List (String × α)) (k : String) : Option α :=
  match ns with
  | [] => none
  | (k', v) :: rest => if k' = k then some v else dictGet rest k

/-- The namespace-filling loop shared by `method_builder.builder` and
`prop_builder.builder`: build an entry for each definition in document
order, aborting on the first error, assigning `namespace[name] = value` as
it goes. -/
def nsFold {σ α : Type} (f : σ → Except PyError (String × α)) :
    List σ → List (String × α) → Except PyError (List (String × α))
  | [], ns => .ok ns
  | x :: xs, ns =>
    match f x with
    | .error e => .error e
    | .ok (k, v) => nsFold f xs (dictSet ns k v)

/-- `method_builder` (`_invokers.py` lines 179-275): fetch the interface
name (`DPClientGenerationError` if absent), then fill a fresh namespace with
one method closure per `<method>` child. -/
def method_builder (reg : Registry) (spec : InterfaceSpec) :
    Except PyError (List (String × MethodInvoker)) :=
  match spec.name with
  | none => .error (.generationError "No name found for interface.")
  | some interface_name =>
    nsFold (build_method_entry reg interface_name) spec.methods []

/-- `prop_builder` (`_invokers.py` lines 17-176): fetch the interface name
(`DPClientGenerationError` if absent), then fill a fresh namespace with one
accessor class per `<property>` child. -/
def prop_builder (reg : Registry) (spec : InterfaceSpec) :
    Except PyError (List (String × PropertyInvoker)) :=
  match spec.name with
  | none => .error (.generationError "No name found for interface.")
  | some interface_name =>
    nsFold (build_prop_entry reg interface_name) spec.properties []

/-- The invoker class `dbus_python_invoker_builder` produces: a `Methods`
namespace and a `Properties` namespace. -/
structure InterfaceInvoker where
  methods : List (String × MethodInvoker)
  properties : List (String × PropertyInvoker)

/-- `dbus_python_invoker_builder` (`_invokers.py` lines 278-313): build the
`Methods` namespace, then the `Properties` namespace; any error from either
sub-builder propagates unchanged and nothing is returned. -/
def dbus_python_invoker_builder (reg : Registry) (spec : InterfaceSpec) :
    Except PyError InterfaceInvoker :=
  match method_builder reg spec with
  | .error e => .error e
  | .ok ms =>
    match prop_builder reg spec with
    | .error e => .error e
    | .ok ps => .ok { methods := ms, properties := ps }

/-- An identity registry used to evaluate the compiler on concrete inputs. -/
def idRegistry : Registry :=
  { xformers := fun _ vs => vs, xformer0 := fun _ v => v }

/-! ### Helper lemmas about the embedded primitives -/

theorem pySorted_perm {α : Type} (key : α → Nat) (l : List α) :
    (pySorted key l).Perm l :=
  List.perm_insertionSort _ l

theorem pySorted_sorted {α : Type} (key : α → Nat) (l : List α) :
    List.Sorted (fun a b => key a ≤ key b) (pySorted key l) := by
  haveI : IsTotal α (fun a b => key a ≤ key b) :=
    ⟨fun a b => Nat.le_total (key a) (key b)⟩
  haveI : IsTrans α (fun a b => key a ≤ key b) :=
    ⟨fun a b c hab hbc => Nat.le_trans hab hbc⟩
  exact List.sorted_insertionSort _ l

/-- When the sort keys of the elements are pairwise distinct, any two
permutations of a list have the same stable sort: the sorted output is the
unique strictly-key-ordered arrangement. -/
theorem pySorted_eq_of_perm {α : Type} (key : α → Nat) {l1 l2 : List α}
    (hperm : l1.Perm l2)
    (hinj : l1.Pairwise (fun a b => key a ≠ key b)) :
    pySorted key l1 = pySorted key l2 := by
  haveI : IsAntisymm α (fun a b => key a < key b) :=
    ⟨fun a b h1 h2 => absurd (Nat.lt_trans h1 h2) (Nat.lt_irrefl _)⟩
  have hsymm : ∀ {x y : α}, key x ≠ key y → key y ≠ key x :=
    fun h e => h e.symm
  have hp1 : (pySorted key l1).Perm l1 := pySorted_perm key l1
  have hp2 : (pySorted key l2).Perm l2 := pySorted_perm key l2
  have hperm12 : (pySorted key l1).Perm (pySorted key l2) :=
    (hp1.trans hperm).trans hp2.symm
  have hne1 : (pySorted key l1).Pairwise (fun a b => key a ≠ key b) :=
    (List.Perm.pairwise_iff hsymm hp1).mpr hinj
  have hne2 : (pySorted key l2).Pairwise (fun a b => key a ≠ key b) :=
    (List.Perm.pairwise_iff hsymm hp2).mpr
      ((List.Perm.pairwise_iff hsymm hperm).mp hinj)
  have hs1 : (pySorted key l1).Pairwise (fun a b => key a < key b) :=
    ((pySorted_sorted key l1).and hne1).imp
      (fun h => Nat.lt_of_le_of_ne h.1 h.2)
  have hs2 : (pySorted key l2).Pairwise (fun a b => key a < key b) :=
    ((pySorted_sorted key l2).and hne2).imp
      (fun h => Nat.lt_of_le_of_ne h.1 h.2)
  exact List.eq_of_perm_of_sorted hperm12 hs1 hs2

theorem attrList_error_of_mem {α : Type} (f : α → Option String) (k : String)
    {l : List α} (h : ∃ a ∈ l, f a = none) :
    attrList f k l = .error (.keyError k) := by
  induction l with
  | nil => rcases h with ⟨a, ha, _⟩; cases ha
  | cons b rest ih =>
    rcases h with ⟨a, ha, hna⟩
    cases hfb : f b with
    | none => simp [attrList, hfb]
    | some s =>
      have harest : a ∈ rest := by
        rcases List.mem_cons.mp ha with rfl | h2
        · rw [hfb] at hna; cases hna
        · exact h2
      have := ih ⟨a, harest, hna⟩
      simp [attrList, hfb, this]

theorem attrList_ok {α : Type} (f : α → Option String) (k : String)
    {l : List α} {r : List String} (h : attrList f k l = .ok r) :
    r = l.map (fun a => (f a).getD "") ∧ ∀ a ∈ l, f a ≠ none := by
  induction l generalizing r with
  | nil =>
    simp only [attrList] at h
    cases h
    exact ⟨rfl, by simp⟩
  | cons b rest ih =>
    simp only [attrList] at h
    cases hfb : f b with
    | none => rw [hfb] at h; cases h
    | some s =>
      rw [hfb] at h
      cases hrest : attrList f k rest with
      | error e => rw [hrest] at h; cases h
      | ok ss =>
        rw [hrest] at h
        cases h
        rcases ih hrest with ⟨hmap, hall⟩
        constructor
        · simp [hfb, hmap]
        · intro a ha
          rcases List.mem_cons.mp ha with rfl | h2
          · rw [hfb]; simp
          · exact hall a h2

theorem dictGet_dictSet_self {α : Type} (ns : List (String × α))
    (k : String) (v : α) : dictGet (dictSet ns k v) k = some v := by
  induction ns with
  | nil => simp [dictSet, dictGet]
  | cons p rest ih =>
    obtain ⟨k', v'⟩ := p
    by_cases h : k' = k
    · simp [dictSet, dictGet, h]
    · simp [dictSet, dictGet, h, ih]

theorem dictGet_dictSet_ne {α : Type} (ns : List (String × α))
    (k k' : String) (v : α) (h : k' ≠ k) :
    dictGet (dictSet ns k v) k' = dictGet ns k' := by
  have hkk : ¬ k = k' := fun e => h e.symm
  induction ns with
  | nil => simp [dictSet, dictGet, hkk]
  | cons p rest ih =>
    obtain ⟨k0, v0⟩ := p
    by_cases h0 : k0 = k
    · subst h0
      simp [dictSet, dictGet, hkk]
    · simp [dictSet, dictGet, h0, ih]

theorem dictSet_cons_same {α : Type} (k0 k : String) (v0 v : α)
    (rest : List (String × α)) (h : k0 = k) :
    dictSet ((k0, v0) :: rest) k v = (k, v) :: rest := by
  simp only [dictSet]
  rw [if_pos h]

theorem dictSet_cons_diff {α : Type} (k0 k : String) (v0 v : α)
    (rest : List (String × α)) (h : ¬ k0 = k) :
    dictSet ((k0, v0) :: rest) k v = (k0, v0) :: dictSet rest k v := by
  simp only [dictSet]
  rw [if_neg h]

theorem dictSet_keys_mem {α : Type} (ns : List (String × α))
    (k x : String) (v : α) :
    x ∈ (dictSet ns k v).map Prod.fst ↔ x ∈ ns.map Prod.fst ∨ x = k := by
  induction ns with
  | nil => simp [dictSet]
  | cons p rest ih =>
    obtain ⟨k0, v0⟩ := p
    by_cases h0 : k0 = k
    · rw [dictSet_cons_same k0 k v0 v rest h0]
      subst h0
      simp only [List.map_cons, List.mem_cons]
      tauto
    · rw [dictSet_cons_diff k0 k v0 v rest h0]
      simp only [List.map_cons, List.mem_cons, ih]
      tauto

theorem dictSet_keys_nodup {α : Type} (ns : List (String × α))
    (k : String) (v : α) (h : (ns.map Prod.fst).Nodup) :
    ((dictSet ns k v).map Prod.fst).Nodup := by
  induction ns with
  | nil => simp [dictSet]
  | cons p rest ih =>
    obtain ⟨k0, v0⟩ := p
    simp only [List.map_cons, List.nodup_cons] at h
    by_cases h0 : k0 = k
    · rw [dictSet_cons_same k0 k v0 v rest h0]
      subst h0
      simp only [List.map_cons, List.nodup_cons]
      exact h
    · rw [dictSet_cons_diff k0 k v0 v rest h0]
      simp only [List.map_cons, List.nodup_cons]
      refine ⟨fun hmem => ?_, ih h.2⟩
      rcases (dictSet_keys_mem rest k k0 v).mp hmem with h2 | h2
      · exact h.1 h2
      · exact h0 h2

theorem dictGet_some_mem {α : Type} {ns : List (String × α)}
    {n : String} {v : α} (h : dictGet ns n = some v) :
    n ∈ ns.map Prod.fst := by
  induction ns with
  | nil => simp [dictGet] at h
  | cons p rest ih =>
    obtain ⟨k0, v0⟩ := p
    by_cases h0 : k0 = n
    · subst h0; simp
    · simp only [dictGet, if_neg h0] at h
      simp [ih h]

theorem nsFold_all_ok {σ α : Type} (f : σ → Except PyError (String × α))
    {l : List σ} {ns0 ns : List (String × α)}
    (h : nsFold f l ns0 = .ok ns) :
    ∀ x ∈ l, ∃ kv, f x = .ok kv := by
  induction l generalizing ns0 with
  | nil => intro x hx; cases hx
  | cons y ys ih =>
    intro x hx
    simp only [nsFold] at h
    cases hfy : f y with
    | error e => rw [hfy] at h; cases h
    | ok kv =>
      obtain ⟨k, v⟩ := kv
      rw [hfy] at h
      rcases List.mem_cons.mp hx with rfl | h2
      · exact ⟨(k, v), hfy⟩
      · exact ih h x h2

theorem nsFold_ok_of_all {σ α : Type} (f : σ → Except PyError (String × α))
    {l : List σ} (ns0 : List (String × α))
    (h : ∀ x ∈ l, ∃ kv, f x = .ok kv) :
    ∃ ns, nsFold f l ns0 = .ok ns := by
  induction l generalizing ns0 with
  | nil => exact ⟨ns0, rfl⟩
  | cons y ys ih =>
    obtain ⟨⟨k, v⟩, hfy⟩ := h y (List.mem_cons_self y ys)
    obtain ⟨ns, hns⟩ :=
      ih (dictSet ns0 k v) (fun x hx => h x (List.mem_cons_of_mem y hx))
    refine ⟨ns, ?_⟩
    simp only [nsFold, hfy]
    exact hns

theorem nsFold_keys_nodup {σ α : Type} (f : σ → Except PyError (String × α))
    {l : List σ} {ns0 ns : List (String × α)}
    (h : nsFold f l ns0 = .ok ns) (h0 : (ns0.map Prod.fst).Nodup) :
    (ns.map Prod.fst).Nodup := by
  induction l generalizing ns0 with
  | nil => simp only [nsFold] at h; cases h; exact h0
  | cons y ys ih =>
    simp only [nsFold] at h
    cases hfy : f y with
    | error e => rw [hfy] at h; cases h
    | ok kv =>
      obtain ⟨k, v⟩ := kv
      rw [hfy] at h
      exact ih h (dictSet_keys_nodup ns0 k v h0)

theorem nsFold_keys_mem {σ α : Type} (f : σ → Except PyError (String × α))
    {l : List σ} {ns0 ns : List (String × α)}
    (h : nsFold f l ns0 = .ok ns) (x : String) :
    x ∈ ns.map Prod.fst ↔
      x ∈ ns0.map Prod.fst ∨ ∃ y ∈ l, ∃ v, f y = .ok (x, v) := by
  induction l generalizing ns0 with
  | nil =>
    simp only [nsFold] at h
    cases h
    simp
  | cons y ys ih =>
    simp only [nsFold] at h
    cases hfy : f y with
    | error e => rw [hfy] at h; cases h
    | ok kv =>
      obtain ⟨k, v⟩ := kv
      rw [hfy] at h
      rw [ih h, dictSet_keys_mem]
      constructor
      · rintro ((hm | rfl) | ⟨z, hz, w, hw⟩)
        · exact Or.inl hm
        · exact Or.inr ⟨y, List.mem_cons_self y ys, v, hfy⟩
        · exact Or.inr ⟨z, List.mem_cons_of_mem y hz, w, hw⟩
      · rintro (hm | ⟨z, hz, w, hw⟩)
        · exact Or.inl (Or.inl hm)
        · rcases List.mem_cons.mp hz with rfl | h2
          · rw [hfy] at hw
            simp only [Except.ok.injEq, Prod.mk.injEq] at hw
            exact Or.inl (Or.inr hw.1.symm)
          · exact Or.inr ⟨z, h2, w, hw⟩

theorem nsFold_dictGet_frozen {σ α : Type}
    (f : σ → Except PyError (String × α))
    {l : List σ} {ns0 ns : List (String × α)} {n : String}
    (h : nsFold f l ns0 = .ok ns)
    (hno : ∀ y ∈ l, ∀ v, f y ≠ .ok (n, v)) :
    dictGet ns n = dictGet ns0 n := by
  induction l generalizing ns0 with
  | nil => simp only [nsFold] at h; cases h; rfl
  | cons y ys ih =>
    simp only [nsFold] at h
    cases hfy : f y with
    | error e => rw [hfy] at h; cases h
    | ok kv =>
      obtain ⟨k, v⟩ := kv
      rw [hfy] at h
      have hkn : ¬ n = k := by
        intro e
        subst e
        exact hno y (List.mem_cons_self y ys) v hfy
      rw [ih h (fun z hz w hw => hno z (List.mem_cons_of_mem y hz) w hw)]
      exact dictGet_dictSet_ne ns0 k n v hkn

/-- After the namespace loop runs to completion, the binding for a name is
the one produced by the last definition bearing that name: every earlier
binding for the same name has been overwritten by dictionary assignment. -/
theorem nsFold_filter_last {σ α : Type}
    (f : σ → Except PyError (String × α)) (nameOf : σ → Option String)
    {l : List σ} {ns0 ns : List (String × α)}
    (hok : nsFold f l ns0 = .ok ns)
    (hkey : ∀ x ∈ l, ∀ k v, f x = .ok (k, v) → nameOf x = some k)
    {n : String} {m : σ}
    (hlast : (l.filter (fun x => nameOf x == some n)).getLast? = some m) :
    ∃ v, f m = .ok (n, v) ∧ dictGet ns n = some v := by
  induction l generalizing ns0 with
  | nil => simp at hlast
  | cons y ys ih =>
    simp only [nsFold] at hok
    cases hfy : f y with
    | error e => rw [hfy] at hok; cases hok
    | ok kv =>
      obtain ⟨k, v0⟩ := kv
      rw [hfy] at hok
      have hyname : nameOf y = some k :=
        hkey y (List.mem_cons_self y ys) k v0 hfy
      have hkey2 : ∀ x ∈ ys, ∀ k2 v2, f x = .ok (k2, v2) → nameOf x = some k2 :=
        fun x hx => hkey x (List.mem_cons_of_mem y hx)
      cases hrest : (ys.filter (fun x => nameOf x == some n)).getLast? with
      | some m2 =>
        have hl2 :
            ((y :: ys).filter (fun x => nameOf x == some n)).getLast? =
              some m2 := by
          cases hy : (nameOf y == some n) with
          | false => rw [List.filter_cons_of_neg (by simp [hy]), hrest]
          | true =>
            rw [@List.filter_cons_of_pos σ (fun x => nameOf x == some n) y ys
              hy, List.getLast?_cons, hrest]
            rfl
        rw [hl2] at hlast
        cases hlast
        exact ih hok hkey2 hrest
      | none =>
        have hempty : ys.filter (fun x => nameOf x == some n) = [] :=
          List.getLast?_eq_none_iff.mp hrest
        cases hy : (nameOf y == some n) with
        | false =>
          rw [List.filter_cons_of_neg (by simp [hy]), hempty] at hlast
          cases hlast
        | true =>
          rw [@List.filter_cons_of_pos σ (fun x => nameOf x == some n) y ys hy,
            hempty, List.getLast?_cons] at hlast
          simp only [List.getLast?_nil, Option.getD_none,
            Option.some.injEq] at hlast
          subst hlast
          have hkn : k = n := by
            rw [hyname] at hy
            simpa using hy
          subst hkn
          refine ⟨v0, hfy, ?_⟩
          have hnone : ∀ z ∈ ys, ∀ w, f z ≠ .ok (k, w) := by
            intro z hz w hw
            have hzname : nameOf z = some k := hkey2 z hz k w hw
            have : z ∈ ys.filter (fun x => nameOf x == some k) :=
              List.mem_filter.mpr ⟨hz, by simp [hzname]⟩
            rw [hempty] at this
            cases this
          rw [nsFold_dictGet_frozen f hok hnone]
          exact dictGet_dictSet_self ns0 k v0

theorem build_method_entry_name {reg : Registry} {iface : String}
    {m : MethodSpec} {k : String} {v : MethodInvoker}
    (h : build_method_entry reg iface m = .ok (k, v)) : m.name = some k := by
  unfold build_method_entry at h
  cases hn : m.name with
  | none => rw [hn] at h; cases h
  | some nm =>
    rw [hn] at h
    cases hb : build_method reg iface m with
    | error e => rw [hb] at h; cases h
    | ok inv =>
      rw [hb] at h
      simp only [Except.ok.injEq, Prod.mk.injEq] at h
      rw [h.1]

theorem build_prop_entry_name {reg : Registry} {iface : String}
    {p : PropertySpec} {k : String} {v : PropertyInvoker}
    (h : build_prop_entry reg iface p = .ok (k, v)) : p.name = some k := by
  obtain ⟨pn, pt, pa⟩ := p
  cases pa with
  | none => simp [build_prop_entry] at h
  | some access =>
    simp only [build_prop_entry] at h
    cases hpair :
        prop_accessor_pair reg iface access ⟨pn, pt, some access⟩ with
    | error e => rw [hpair] at h; cases h
    | ok inv =>
      rw [hpair] at h
      cases pn with
      | none => simp at h
      | some nm =>
        simp only [Except.ok.injEq, Prod.mk.injEq] at h
        simp [h.1]

/-! ### Claim theorems -/

/-- C10: for every property definition the `access` attribute is examined
before any other attribute of that property: a property whose `access`
attribute is absent fails generation with the missing-access
`GenerationError`, whatever its `name` and `type` attributes hold (present
or absent), so the missing-access error takes precedence over the
missing-name and missing-type errors. -/
theorem prop_access_checked_first (reg : Registry) (iface : String)
    (p : PropertySpec) (h : p.access = none) :
    build_prop_entry reg iface p =
      .error (.generationError "No access found for property.") := by
  unfold build_prop_entry
  rw [h]

theorem prop_access_checked_first_witness :
    build_prop_entry idRegistry "I"
      { name := none, type := none, access := none } =
      .error (.generationError "No access found for property.") :=
  prop_access_checked_first idRegistry "I"
    { name := none, type := none, access := none } rfl

/-- C2: for every method invoker, a named-argument mapping whose key set
differs from the declared inbound argument names raises the
`DPClientRuntimeError` carrying the expected name list and the received
name list, and no transport call is produced; conversely, when the key sets
are equal no such error is raised and a transport call is produced. -/
theorem invoke_name_set_validation (inv : MethodInvoker) (kwargs : Kwargs) :
    (setEq inv.arg_names (kwargs.map Prod.fst) = false →
      inv.invoke kwargs =
        .error (.runtimeError inv.arg_names (kwargs.map Prod.fst)) ∧
      ∀ c : Call, inv.invoke kwargs ≠ .ok c) ∧
    (setEq inv.arg_names (kwargs.map Prod.fst) = true →
      ∃ c : Call, inv.invoke kwargs = .ok c) := by
  constructor
  · intro hne
    have hv : inv.invoke kwargs =
        .error (.runtimeError inv.arg_names (kwargs.map Prod.fst)) := by
      unfold MethodInvoker.invoke
      rw [hne, if_pos rfl]
    refine ⟨hv, ?_⟩
    intro c hc
    rw [hv] at hc
    cases hc
  · intro heq
    unfold MethodInvoker.invoke
    rw [heq, if_neg (by simp : ¬ (true = false))]
    exact ⟨_, rfl⟩

theorem invoke_name_set_validation_witness :
    ((MethodInvoker.mk "I" "M" ["a", "b"] id).invoke
        [("b", .num 2), ("x", .num 1)] =
      .error (.runtimeError ["a", "b"] ["b", "x"]) ∧
     ∀ c : Call, (MethodInvoker.mk "I" "M" ["a", "b"] id).invoke
        [("b", .num 2), ("x", .num 1)] ≠ .ok c) ∧
    (∃ c : Call, (MethodInvoker.mk "I" "M" ["a", "b"] id).invoke
        [("b", .num 2), ("a", .num 1)] = .ok c) :=
  ⟨(invoke_name_set_validation (MethodInvoker.mk "I" "M" ["a", "b"] id)
      [("b", .num 2), ("x", .num 1)]).1 (by decide),
   (invoke_name_set_validation (MethodInvoker.mk "I" "M" ["a", "b"] id)
      [("b", .num 2), ("a", .num 1)]).2 (by decide)⟩

/-- C8: a key-mismatch `RuntimeError` is scoped to the single call: the
call yields the error, the invoker's captured state (interface name,
ordered argument names, encoder) is unchanged afterward, and a subsequent
invocation of the same invoker behaves exactly as if the failed call had
never happened. -/
theorem runtime_error_scoped_to_call (inv : MethodInvoker) (k1 k2 : Kwargs)
    (h : setEq inv.arg_names (k1.map Prod.fst) = false) :
    (inv.invokeSt k1).1 =
      .error (.runtimeError inv.arg_names (k1.map Prod.fst)) ∧
    (inv.invokeSt k1).2 = inv ∧
    (inv.invokeSt k1).2.interface_name = inv.interface_name ∧
    (inv.invokeSt k1).2.arg_names = inv.arg_names ∧
    (inv.invokeSt k1).2.func = inv.func ∧
    (inv.invokeSt k1).2.invokeSt k2 = inv.invokeSt k2 := by
  refine ⟨?_, rfl, rfl, rfl, rfl, rfl⟩
  show inv.invoke k1 = _
  unfold MethodInvoker.invoke
  rw [h, if_pos rfl]

theorem runtime_error_scoped_to_call_witness :
    ((MethodInvoker.mk "I" "M" ["a"] id).invokeSt [("z", .num 7)]).1 =
      .error (.runtimeError ["a"] ["z"]) ∧
    ((MethodInvoker.mk "I" "M" ["a"] id).invokeSt [("z", .num 7)]).2 =
      MethodInvoker.mk "I" "M" ["a"] id ∧
    ((MethodInvoker.mk "I" "M" ["a"] id).invokeSt
        [("z", .num 7)]).2.interface_name =
      (MethodInvoker.mk "I" "M" ["a"] id).interface_name ∧
    ((MethodInvoker.mk "I" "M" ["a"] id).invokeSt
        [("z", .num 7)]).2.arg_names =
      (MethodInvoker.mk "I" "M" ["a"] id).arg_names ∧
    ((MethodInvoker.mk "I" "M" ["a"] id).invokeSt [("z", .num 7)]).2.func =
      (MethodInvoker.mk "I" "M" ["a"] id).func ∧
    ((MethodInvoker.mk "I" "M" ["a"] id).invokeSt
        [("z", .num 7)]).2.invokeSt [("a", .num 1)] =
      (MethodInvoker.mk "I" "M" ["a"] id).invokeSt [("a", .num 1)] :=
  runtime_error_scoped_to_call (MethodInvoker.mk "I" "M" ["a"] id)
    [("z", .num 7)] [("a", .num 1)] (by decide)

theorem build_prop_entry_pair {reg : Registry} {iface : String}
    {p : PropertySpec} {k : String} {v : PropertyInvoker}
    (h : build_prop_entry reg iface p = .ok (k, v)) :
    ∃ a, p.access = some a ∧ prop_accessor_pair reg iface a p = .ok v := by
  obtain ⟨pn, pt, pa⟩ := p
  cases pa with
  | none => simp [build_prop_entry] at h
  | some access =>
    simp only [build_prop_entry] at h
    refine ⟨access, rfl, ?_⟩
    cases hpair :
        prop_accessor_pair reg iface access ⟨pn, pt, some access⟩ with
    | error e => rw [hpair] at h; cases h
    | ok inv =>
      rw [hpair] at h
      cases pn with
      | none => simp at h
      | some nm =>
        simp only [Except.ok.injEq, Prod.mk.injEq] at h
        rw [h.2]

theorem prop_accessor_pair_gating {reg : Registry} {iface : String}
    {a : String} {p : PropertySpec} {v : PropertyInvoker}
    (h : prop_accessor_pair reg iface a p = .ok v) :
    (a = "read" → (v.get).isSome ∧ v.set = none) ∧
    (a = "write" → v.get = none ∧ (v.set).isSome) ∧
    (a ≠ "read" → a ≠ "write" → (v.get).isSome ∧ (v.set).isSome) := by
  unfold prop_accessor_pair at h
  by_cases hr : a = "read"
  · rw [if_pos hr] at h
    cases hg : build_property_getter iface p with
    | error e => rw [hg] at h; cases h
    | ok g =>
      rw [hg] at h
      cases h
      refine ⟨fun _ => ⟨rfl, rfl⟩, ?_, ?_⟩
      · intro hw
        rw [hr] at hw
        exact absurd hw (by decide)
      · intro hnr
        exact absurd hr hnr
  · rw [if_neg hr] at h
    by_cases hw : a = "write"
    · rw [if_pos hw] at h
      cases hs : build_property_setter reg iface p with
      | error e => rw [hs] at h; cases h
      | ok s =>
        rw [hs] at h
        cases h
        refine ⟨fun hr2 => absurd hr2 hr, fun _ => ⟨rfl, rfl⟩, ?_⟩
        intro _ hnw
        exact absurd hw hnw
    · rw [if_neg hw] at h
      cases hg : build_property_getter iface p with
      | error e => rw [hg] at h; cases h
      | ok g =>
        rw [hg] at h
        cases hs : build_property_setter reg iface p with
        | error e => rw [hs] at h; cases h
        | ok s =>
          rw [hs] at h
          cases h
          exact ⟨fun hr2 => absurd hr2 hr, fun hw2 => absurd hw2 hw,
            fun _ _ => ⟨rfl, rfl⟩⟩

/-- C3: the generated property invoker exposes exactly the accessors the
declared `access` value selects: `"read"` yields a `Get` accessor and no
`Set`, `"write"` yields a `Set` accessor and no `Get`, and any other access
value (including `"readwrite"` and arbitrary strings) yields both; in every
case at least one accessor is present. -/
theorem prop_access_gating (reg : Registry) (iface : String)
    (p : PropertySpec) (nm : String) (pin : PropertyInvoker)
    (h : build_prop_entry reg iface p = .ok (nm, pin)) :
    (p.access = some "read" → (pin.get).isSome ∧ pin.set = none) ∧
    (p.access = some "write" → pin.get = none ∧ (pin.set).isSome) ∧
    (∀ a, p.access = some a → a ≠ "read" → a ≠ "write" →
      (pin.get).isSome ∧ (pin.set).isSome) ∧
    ((pin.get).isSome ∨ (pin.set).isSome) := by
  obtain ⟨a, hacc, hpair⟩ := build_prop_entry_pair h
  obtain ⟨h1, h2, h3⟩ := prop_accessor_pair_gating hpair
  refine ⟨?_, ?_, ?_, ?_⟩
  · intro hr
    rw [hacc] at hr
    exact h1 (Option.some.inj hr)
  · intro hw
    rw [hacc] at hw
    exact h2 (Option.some.inj hw)
  · intro a2 ha2 hnr hnw
    rw [hacc] at ha2
    cases Option.some.inj ha2
    exact h3 hnr hnw
  · by_cases hr : a = "read"
    · exact Or.inl (h1 hr).1
    · by_cases hw : a = "write"
      · exact Or.inr (h2 hw).2
      · exact Or.inl (h3 hr hw).1

/-- A concrete read-only property specification used to evaluate the
builders. -/
def wPropRead : PropertySpec :=
  { name := some "P", type := some "s", access := some "read" }

/-- The accessor pair the builders produce for `wPropRead`. -/
def wPIRead : PropertyInvoker :=
  { get := some { interface_name := "I", name := "P" }, set := none }

theorem prop_access_gating_witness :
    (wPropRead.access = some "read" →
      (wPIRead.get).isSome ∧ wPIRead.set = none) ∧
    (wPropRead.access = some "write" →
      wPIRead.get = none ∧ (wPIRead.set).isSome) ∧
    (∀ a, wPropRead.access = some a → a ≠ "read" → a ≠ "write" →
      (wPIRead.get).isSome ∧ (wPIRead.set).isSome) ∧
    ((wPIRead.get).isSome ∨ (wPIRead.set).isSome) :=
  prop_access_gating idRegistry "I" wPropRead "P" wPIRead rfl

/-- C4 counterexample: a property whose `type` attribute is absent but whose
`access` is `"read"` builds successfully — the read branch never consults
`type` — so a missing type does not always fail generation. -/
theorem prop_missing_type_read_builds :
    build_prop_entry idRegistry "I"
      { name := some "P", type := none, access := some "read" } =
      .ok ("P", { get := some { interface_name := "I", name := "P" },
                  set := none }) ∧
    resultIsGenError (build_prop_entry idRegistry "I"
      { name := some "P", type := none, access := some "read" }) = false :=
  ⟨rfl, rfl⟩

/-- C4 (amended): generation of a property fails with a `GenerationError`
whenever `access` is absent, or `name` is absent, and a missing `type`
fails generation exactly when a setter is built, i.e. when the declared
access value is not `"read"`; a property with access `"read"` never
consults `type`. -/
theorem prop_missing_attr_generation_errors (reg : Registry)
    (iface : String) (p : PropertySpec) :
    (p.access = none →
      build_prop_entry reg iface p =
        .error (.generationError "No access found for property.")) ∧
    (∀ a, p.access = some a → p.name = none →
      build_prop_entry reg iface p =
        .error (.generationError "No name found for property.")) ∧
    (∀ a, p.access = some a → a ≠ "read" → p.name ≠ none → p.type = none →
      build_prop_entry reg iface p =
        .error (.generationError "No type found for property.")) := by
  obtain ⟨pn, pt, pa⟩ := p
  refine ⟨?_, ?_, ?_⟩
  · intro h
    cases h
    rfl
  · intro a ha hn
    cases ha
    cases hn
    simp only [build_prop_entry, prop_accessor_pair, build_property_getter,
      build_property_setter]
    by_cases hr : a = "read"
    · rw [if_pos hr]
    · rw [if_neg hr]
      by_cases hw : a = "write"
      · rw [if_pos hw]
      · rw [if_neg hw]
  · intro a ha hnr hpn hpt
    cases ha
    cases hpt
    cases hpn2 : pn with
    | none => exact absurd hpn2 hpn
    | some nmv =>
      cases hpn2
      simp only [build_prop_entry, prop_accessor_pair,
        build_property_getter, build_property_setter]
      rw [if_neg hnr]
      by_cases hw : a = "write"
      · rw [if_pos hw]
      · rw [if_neg hw]

/-- A concrete writable property specification lacking its `type`
attribute. -/
def wPropWriteNoType : PropertySpec :=
  { name := some "P", type := none, access := some "write" }

theorem prop_missing_attr_generation_errors_witness :
    (wPropWriteNoType.access = none →
      build_prop_entry idRegistry "I" wPropWriteNoType =
        .error (.generationError "No access found for property.")) ∧
    (∀ a, wPropWriteNoType.access = some a → wPropWriteNoType.name = none →
      build_prop_entry idRegistry "I" wPropWriteNoType =
        .error (.generationError "No name found for property.")) ∧
    (∀ a, wPropWriteNoType.access = some a → a ≠ "read" →
      wPropWriteNoType.name ≠ none → wPropWriteNoType.type = none →
      build_prop_entry idRegistry "I" wPropWriteNoType =
        .error (.generationError "No type found for property.")) :=
  prop_missing_attr_generation_errors idRegistry "I" wPropWriteNoType

/-- C5 counterexample: a method whose argument lacks its `name` attribute
does not fail with a `GenerationError`: the bare dictionary access in the
argument-name list comprehension raises Python's `KeyError` instead, which
is not a `DPClientGenerationError`. -/
theorem method_missing_arg_name_keyerror :
    build_method idRegistry "I"
      { name := some "M",
        args := [{ name := none, type := some "s",
                   direction := some "in" }] } =
      .error (.keyError "name") ∧
    resultIsGenError (build_method idRegistry "I"
      { name := some "M",
        args := [{ name := none, type := some "s",
                   direction := some "in" }] }) = false :=
  ⟨rfl, rfl⟩

/-- C5 (amended): a method definition whose own `name` attribute is absent
fails generation with a `GenerationError`; a method whose inbound argument
lacks its `name` attribute also fails generation, but with Python's bare
`KeyError` escaping the list comprehension, not a `GenerationError`. -/
theorem method_missing_name_generation_errors (reg : Registry)
    (iface : String) (m : MethodSpec) :
    (m.name = none →
      build_method reg iface m =
        .error (.generationError "No name found for method.")) ∧
    (m.name ≠ none →
      (∃ a ∈ m.args.filter (fun e => e.direction == some "in"),
        a.name = none) →
      build_method reg iface m = .error (.keyError "name")) := by
  constructor
  · intro h
    unfold build_method
    rw [h]
  · intro hn hex
    obtain ⟨nm, hnm⟩ := Option.ne_none_iff_exists'.mp hn
    simp only [build_method]
    rw [hnm, attrList_error_of_mem (fun e => e.name) "name" hex]

/-- A concrete method specification one of whose inbound arguments lacks
its `name` attribute. -/
def wMethodBadArg : MethodSpec :=
  { name := some "M",
    args := [{ name := none, type := some "s", direction := some "in" }] }

theorem method_missing_name_generation_errors_witness :
    (wMethodBadArg.name = none →
      build_method idRegistry "I" wMethodBadArg =
        .error (.generationError "No name found for method.")) ∧
    (wMethodBadArg.name ≠ none →
      (∃ a ∈ wMethodBadArg.args.filter (fun e => e.direction == some "in"),
        a.name = none) →
      build_method idRegistry "I" wMethodBadArg =
        .error (.keyError "name")) :=
  method_missing_name_generation_errors idRegistry "I" wMethodBadArg

/-- C6: for every successfully built method, the builder selected exactly
the `direction="in"` arguments in declared order, recorded their names as
the ordered argument-name list, formed the combined signature by
concatenating the inbound type strings in the same order (the empty string
when there are no inbound arguments), and captured as the invoker's encoder
the registry's transformer for that combined signature; invocation
(`MethodInvoker.invoke`) takes no registry argument, so it can only use the
captured encoder. -/
theorem build_method_generation (reg : Registry) (iface : String)
    (spec : MethodSpec) (inv : MethodInvoker)
    (h : build_method reg iface spec = .ok inv) :
    inv.interface_name = iface ∧
    spec.name = some inv.name ∧
    (∀ a ∈ spec.args.filter (fun e => e.direction == some "in"),
      a.name ≠ none ∧ a.type ≠ none) ∧
    inv.arg_names =
      (spec.args.filter (fun e => e.direction == some "in")).map
        (fun a => a.name.getD "") ∧
    inv.func =
      reg.xformers (String.join
        ((spec.args.filter (fun e => e.direction == some "in")).map
          (fun a => a.type.getD ""))) ∧
    (spec.args.filter (fun e => e.direction == some "in") = [] →
      inv.func = reg.xformers "") := by
  simp only [build_method] at h
  cases hn : spec.name with
  | none => rw [hn] at h; cases h
  | some nm =>
    rw [hn] at h
    cases hA : attrList (fun (e : ArgSpec) => e.name) "name"
        (spec.args.filter (fun e => e.direction == some "in")) with
    | error e => rw [hA] at h; cases h
    | ok names =>
      rw [hA] at h
      cases hT : attrList (fun (e : ArgSpec) => e.type) "type"
          (spec.args.filter (fun e => e.direction == some "in")) with
      | error e => rw [hT] at h; cases h
      | ok types =>
        rw [hT] at h
        cases h
        obtain ⟨hnames, hnall⟩ :=
          attrList_ok (fun (e : ArgSpec) => e.name) "name" hA
        obtain ⟨htypes, htall⟩ :=
          attrList_ok (fun (e : ArgSpec) => e.type) "type" hT
        refine ⟨rfl, ?_, ?_, ?_, ?_, ?_⟩
        · rfl
        · intro a ha
          exact ⟨hnall a ha, htall a ha⟩
        · exact hnames
        · rw [htypes]
        · intro he
          rw [htypes, he]
          rfl

/-- A concrete two-inbound-argument method specification used to evaluate
the builder. -/
def wMethodAB : MethodSpec :=
  { name := some "M",
    args := [{ name := some "a", type := some "s", direction := some "in" },
             { name := some "b", type := some "q", direction := some "in" },
             { name := some "r", type := some "u",
               direction := some "out" }] }

/-- The invoker `build_method` produces for `wMethodAB` against
`idRegistry`. -/
def wInvAB : MethodInvoker :=
  { interface_name := "I", name := "M", arg_names := ["a", "b"],
    func := idRegistry.xformers "sq" }

theorem build_method_generation_witness :
    wInvAB.interface_name = "I" ∧
    wMethodAB.name = some wInvAB.name ∧
    (∀ a ∈ wMethodAB.args.filter (fun e => e.direction == some "in"),
      a.name ≠ none ∧ a.type ≠ none) ∧
    wInvAB.arg_names =
      (wMethodAB.args.filter (fun e => e.direction == some "in")).map
        (fun a => a.name.getD "") ∧
    wInvAB.func =
      idRegistry.xformers (String.join
        ((wMethodAB.args.filter (fun e => e.direction == some "in")).map
          (fun a => a.type.getD ""))) ∧
    (wMethodAB.args.filter (fun e => e.direction == some "in") = [] →
      wInvAB.func = idRegistry.xformers "") :=
  build_method_generation idRegistry "I" wMethodAB wInvAB rfl

/-- C1: for every method and every keyword-argument dictionary whose key
set equals the declared inbound argument names, any two supply orders of
the same key/value pairs produce the identical dispatched call: the values
are permuted into declared-argument order (a permutation independent of
supply order) before passing through the captured encoder. -/
theorem invoke_order_invariance (reg : Registry) (iface : String)
    (spec : MethodSpec) (inv : MethodInvoker)
    (_hbuild : build_method reg iface spec = .ok inv)
    (k1 k2 : Kwargs) (hperm : k1.Perm k2)
    (hnd : (k1.map Prod.fst).Nodup)
    (hset : setEq inv.arg_names (k1.map Prod.fst) = true) :
    inv.invoke k1 = inv.invoke k2 := by
  have hkeysperm : (k1.map Prod.fst).Perm (k2.map Prod.fst) :=
    hperm.map Prod.fst
  have hsets := of_decide_eq_true hset
  have hmem : ∀ x ∈ k1.map Prod.fst, x ∈ inv.arg_names := hsets.2
  have hset2 : setEq inv.arg_names (k2.map Prod.fst) = true := by
    apply decide_eq_true
    exact ⟨fun x hx => hkeysperm.mem_iff.mp (hsets.1 x hx),
      fun x hx => hsets.2 x (hkeysperm.mem_iff.mpr hx)⟩
  have hsorteq :
      pySorted (fun p => List.indexOf p.1 inv.arg_names) k1 =
        pySorted (fun p => List.indexOf p.1 inv.arg_names) k2 := by
    apply pySorted_eq_of_perm _ hperm
    have hp : k1.Pairwise (fun p q => p.1 ≠ q.1) := List.pairwise_map.mp hnd
    refine hp.imp_of_mem ?_
    intro p q hpmem hqmem hne heq
    have hp1 : p.1 ∈ inv.arg_names :=
      hmem p.1 (List.mem_map_of_mem Prod.fst hpmem)
    have hq1 : q.1 ∈ inv.arg_names :=
      hmem q.1 (List.mem_map_of_mem Prod.fst hqmem)
    exact hne ((List.indexOf_inj hp1 hq1).mp heq)
  have hcond : ¬ (true = false) := by simp
  unfold MethodInvoker.invoke
  rw [hset, hset2, if_neg hcond, if_neg hcond, hsorteq]

theorem invoke_order_invariance_witness :
    wInvAB.invoke [("b", .num 2), ("a", .num 1)] =
      wInvAB.invoke [("a", .num 1), ("b", .num 2)] :=
  invoke_order_invariance idRegistry "I" wMethodAB wInvAB rfl
    [("b", .num 2), ("a", .num 1)] [("a", .num 1), ("b", .num 2)]
    (List.Perm.swap ("a", DVal.num 1) ("b", DVal.num 2) [])
    (by decide) (by decide)

/-- C7: building the interface invoker is all-or-nothing: an error from the
method sub-builder, or from the property sub-builder, propagates unchanged
out of `dbus_python_invoker_builder` and no invoker is returned; on
success, the `Methods` and `Properties` namespaces are exactly the
sub-builders' results, their keys are pairwise distinct, every declared
method/property name keys exactly one entry, and every key is a declared
name. -/
theorem interface_build_all_or_nothing (reg : Registry)
    (spec : InterfaceSpec) :
    (∀ e, method_builder reg spec = .error e →
      dbus_python_invoker_builder reg spec = .error e) ∧
    (∀ e ms, method_builder reg spec = .ok ms →
      prop_builder reg spec = .error e →
      dbus_python_invoker_builder reg spec = .error e) ∧
    (∀ inv, dbus_python_invoker_builder reg spec = .ok inv →
      method_builder reg spec = .ok inv.methods ∧
      prop_builder reg spec = .ok inv.properties ∧
      (inv.methods.map Prod.fst).Nodup ∧
      (inv.properties.map Prod.fst).Nodup ∧
      (∀ ms ∈ spec.methods, ∀ n, ms.name = some n →
        (inv.methods.map Prod.fst).count n = 1) ∧
      (∀ k ∈ inv.methods.map Prod.fst,
        ∃ ms ∈ spec.methods, ms.name = some k) ∧
      (∀ ps ∈ spec.properties, ∀ n, ps.name = some n →
        (inv.properties.map Prod.fst).count n = 1) ∧
      (∀ k ∈ inv.properties.map Prod.fst,
        ∃ ps ∈ spec.properties, ps.name = some k)) := by
  refine ⟨?_, ?_, ?_⟩
  · intro e h
    unfold dbus_python_invoker_builder
    rw [h]
  · intro e ms h1 h2
    unfold dbus_python_invoker_builder
    rw [h1, h2]
  · intro inv h
    unfold dbus_python_invoker_builder at h
    cases hm : method_builder reg spec with
    | error e => rw [hm] at h; cases h
    | ok ms =>
      rw [hm] at h
      cases hp : prop_builder reg spec with
      | error e => rw [hp] at h; cases h
      | ok ps =>
        rw [hp] at h
        cases h
        unfold method_builder at hm
        unfold prop_builder at hp
        cases hname : spec.name with
        | none => rw [hname] at hm; cases hm
        | some iface =>
          rw [hname] at hm
          rw [hname] at hp
          have hmnodup : (ms.map Prod.fst).Nodup :=
            nsFold_keys_nodup _ hm (by simp)
          have hpnodup : (ps.map Prod.fst).Nodup :=
            nsFold_keys_nodup _ hp (by simp)
          refine ⟨rfl, rfl, hmnodup, hpnodup, ?_, ?_, ?_, ?_⟩
          · intro msp hmsp n hn
            obtain ⟨⟨k, v⟩, hf⟩ := nsFold_all_ok _ hm msp hmsp
            have hk : msp.name = some k := build_method_entry_name hf
            rw [hn] at hk
            cases Option.some.inj hk
            have hmemk : n ∈ ms.map Prod.fst :=
              (nsFold_keys_mem _ hm n).mpr (Or.inr ⟨msp, hmsp, v, hf⟩)
            exact List.count_eq_one_of_mem hmnodup hmemk
          · intro k hk
            rcases (nsFold_keys_mem _ hm k).mp hk with hin | ⟨y, hy, v, hf⟩
            · simp at hin
            · exact ⟨y, hy, build_method_entry_name hf⟩
          · intro psp hpsp n hn
            obtain ⟨⟨k, v⟩, hf⟩ := nsFold_all_ok _ hp psp hpsp
            have hk : psp.name = some k := build_prop_entry_name hf
            rw [hn] at hk
            cases Option.some.inj hk
            have hmemk : n ∈ ps.map Prod.fst :=
              (nsFold_keys_mem _ hp n).mpr (Or.inr ⟨psp, hpsp, v, hf⟩)
            exact List.count_eq_one_of_mem hpnodup hmemk
          · intro k hk
            rcases (nsFold_keys_mem _ hp k).mp hk with hin | ⟨y, hy, v, hf⟩
            · simp at hin
            · exact ⟨y, hy, build_prop_entry_name hf⟩

/-- An interface spec whose only method definition lacks its name. -/
def wSpecBadM : InterfaceSpec :=
  { name := some "I", methods := [{ name := none, args := [] }],
    properties := [] }

/-- An interface spec whose only property definition lacks its access. -/
def wSpecBadP : InterfaceSpec :=
  { name := some "I", methods := [],
    properties := [{ name := some "P", type := some "s", access := none }] }

/-- A well-formed interface spec with one method and one property. -/
def wSpecOk : InterfaceSpec :=
  { name := some "I", methods := [{ name := some "M", args := [] }],
    properties := [wPropRead] }

/-- The invoker built for the zero-argument method `M` against
`idRegistry`. -/
def wInvM : MethodInvoker :=
  { interface_name := "I", name := "M", arg_names := [],
    func := idRegistry.xformers "" }

/-- The interface invoker built from `wSpecOk` against `idRegistry`. -/
def wIfaceInv : InterfaceInvoker :=
  { methods := [("M", wInvM)], properties := [("P", wPIRead)] }

theorem interface_build_all_or_nothing_witness :
    dbus_python_invoker_builder idRegistry wSpecBadM =
      .error (.generationError "No name found for method.") ∧
    dbus_python_invoker_builder idRegistry wSpecBadP =
      .error (.generationError "No access found for property.") ∧
    (wIfaceInv.methods.map Prod.fst).count "M" = 1 ∧
    (wIfaceInv.properties.map Prod.fst).count "P" = 1 :=
  ⟨(interface_build_all_or_nothing idRegistry wSpecBadM).1
      (.generationError "No name found for method.") rfl,
   (interface_build_all_or_nothing idRegistry wSpecBadP).2.1
      (.generationError "No access found for property.") [] rfl rfl,
   ((interface_build_all_or_nothing idRegistry wSpecOk).2.2 wIfaceInv
      rfl).2.2.2.2.1 { name := some "M", args := [] } (by simp [wSpecOk])
      "M" rfl,
   ((interface_build_all_or_nothing idRegistry wSpecOk).2.2 wIfaceInv
      rfl).2.2.2.2.2.2.1 wPropRead (by simp [wSpecOk]) "P" rfl⟩

/-- C9: duplicate names overwrite silently, last definition wins.  For an
interface whose every method/property definition builds successfully,
generation of the namespaces succeeds, and for any name, the binding in the
produced namespace is the invoker built from the *last* definition
declaring that name (every earlier same-named definition's invoker has been
overwritten by the dictionary assignment), and that name keys exactly one
entry. -/
theorem duplicate_definitions_last_wins (reg : Registry)
    (spec : InterfaceSpec) (iface : String) (hn : spec.name = some iface)
    (hm : ∀ x ∈ spec.methods, ∃ kv, build_method_entry reg iface x = .ok kv)
    (hp : ∀ x ∈ spec.properties,
      ∃ kv, build_prop_entry reg iface x = .ok kv) :
    (∃ ns, method_builder reg spec = .ok ns ∧
      ∀ n (x : MethodSpec),
        (spec.methods.filter (fun y => y.name == some n)).getLast? =
          some x →
        ∃ v, build_method_entry reg iface x = .ok (n, v) ∧
          dictGet ns n = some v ∧ (ns.map Prod.fst).count n = 1) ∧
    (∃ ns, prop_builder reg spec = .ok ns ∧
      ∀ n (x : PropertySpec),
        (spec.properties.filter (fun y => y.name == some n)).getLast? =
          some x →
        ∃ v, build_prop_entry reg iface x = .ok (n, v) ∧
          dictGet ns n = some v ∧ (ns.map Prod.fst).count n = 1) := by
  constructor
  · obtain ⟨ns, hns⟩ :=
      nsFold_ok_of_all (build_method_entry reg iface) [] hm
    refine ⟨ns, ?_, ?_⟩
    · unfold method_builder
      rw [hn]
      exact hns
    · intro n x hlast
      obtain ⟨v, hfv, hget⟩ :=
        nsFold_filter_last (build_method_entry reg iface)
          (fun y => y.name) hns
          (fun y _ k v2 hf => build_method_entry_name hf) hlast
      exact ⟨v, hfv, hget, List.count_eq_one_of_mem
        (nsFold_keys_nodup _ hns (by simp)) (dictGet_some_mem hget)⟩
  · obtain ⟨ns, hns⟩ :=
      nsFold_ok_of_all (build_prop_entry reg iface) [] hp
    refine ⟨ns, ?_, ?_⟩
    · unfold prop_builder
      rw [hn]
      exact hns
    · intro n x hlast
      obtain ⟨v, hfv, hget⟩ :=
        nsFold_filter_last (build_prop_entry reg iface)
          (fun y => y.name) hns
          (fun y _ k v2 hf => build_prop_entry_name hf) hlast
      exact ⟨v, hfv, hget, List.count_eq_one_of_mem
        (nsFold_keys_nodup _ hns (by simp)) (dictGet_some_mem hget)⟩

/-- First of two method definitions sharing the name `M`. -/
def wM1 : MethodSpec :=
  { name := some "M",
    args := [{ name := some "a", type := some "s",
               direction := some "in" }] }

/-- Second of two method definitions sharing the name `M`. -/
def wM2 : MethodSpec := { name := some "M", args := [] }

/-- Second of two property definitions sharing the name `P` (the first is
`wPropRead`). -/
def wP2 : PropertySpec :=
  { name := some "P", type := some "q", access := some "write" }

/-- An interface spec with two methods named `M` and two properties named
`P`. -/
def wSpecDup : InterfaceSpec :=
  { name := some "I", methods := [wM1, wM2],
    properties := [wPropRead, wP2] }

theorem duplicate_definitions_last_wins_witness :
    (∃ ns, method_builder idRegistry wSpecDup = .ok ns ∧
      ∀ n (x : MethodSpec),
        (wSpecDup.methods.filter (fun y => y.name == some n)).getLast? =
          some x →
        ∃ v, build_method_entry idRegistry "I" x = .ok (n, v) ∧
          dictGet ns n = some v ∧ (ns.map Prod.fst).count n = 1) ∧
    (∃ ns, prop_builder idRegistry wSpecDup = .ok ns ∧
      ∀ n (x : PropertySpec),
        (wSpecDup.properties.filter (fun y => y.name == some n)).getLast? =
          some x →
        ∃ v, build_prop_entry idRegistry "I" x = .ok (n, v) ∧
          dictGet ns n = some v ∧ (ns.map Prod.fst).count n = 1) :=
  duplicate_definitions_last_wins idRegistry wSpecDup "I" rfl
    (by
      intro x hx
      simp only [wSpecDup, List.mem_cons, List.mem_singleton] at hx
      rcases hx with rfl | rfl | hx
      · exact ⟨_, rfl⟩
      · exact ⟨_, rfl⟩
      · cases hx)
    (by
      intro x hx
      simp only [wSpecDup, List.mem_cons, List.mem_singleton] at hx
      rcases hx with rfl | rfl | hx
      · exact ⟨_, rfl⟩
      · exact ⟨_, rfl⟩
      · cases hx)
